import Mathlib

/-!
Shallow embedding of the kubectl-usage repository's core logic:
the resilience primitives (circuit breaker, resource pool, retry with
exponential backoff) from the `resilience` package, and the collector's
row computation and correlation from `pkg/collector` and `pkg/metrics`.

Modelling conventions:
* Go `int32`/`int64` counters and timestamps are modelled as `Int`; no
  statement in this development approaches the 32/64-bit overflow bounds,
  so wrap-around is not modelled.
* `float64` quantities (memory mebibytes, backoff factors, percentages)
  are modelled as exact rationals `ℚ`.
* Wall-clock time (`time.Now().Unix()`) and live process memory
  (`runtime.ReadMemStats`) are passed as explicit parameters.
* Stateful methods become pure state-passing functions; the atomic
  compare-and-swap in `canExecute` always succeeds in this sequential
  model.
-/

namespace KubectlUsage

/-! ## Circuit breaker (`resilience.CircuitBreaker`) -/

/-- The three circuit breaker states (`StateClosed`, `StateHalfOpen`, `StateOpen`). -/
inductive CircuitBreakerState where
  | Closed
  | HalfOpen
  | Open
deriving DecidableEq, Repr

/-- State of a `resilience.CircuitBreaker`: `maxFailures` and `timeout`
(the latter already truncated to whole seconds, as in
`int64(cb.timeout.Seconds())`), plus the mutable fields `currentState`,
`failureCount`, `lastFailure` (unix seconds) and `successCount`. -/
structure CircuitBreaker where
  maxFailures : Int
  timeout : Int
  currentState : CircuitBreakerState
  failureCount : Int
  lastFailure : Int
  successCount : Int
deriving DecidableEq, Repr

/-- Go `NewCircuitBreaker`: zero-valued mutable fields, `Closed` state. -/
def NewCircuitBreaker (maxFailures timeout : Int) : CircuitBreaker :=
  { maxFailures := maxFailures, timeout := timeout, currentState := .Closed,
    failureCount := 0, lastFailure := 0, successCount := 0 }

/-- Go `CircuitBreaker.canExecute` at wall-clock time `now` (unix seconds).
Returns the decision and the (possibly updated) breaker: in the `Open`
case, when the timeout has passed, the CAS to `HalfOpen` succeeds. -/
def canExecute (cb : CircuitBreaker) (now : Int) : Bool × CircuitBreaker :=
  match cb.currentState with
  | .Closed => (true, cb)
  | .Open =>
      if now - cb.lastFailure ≥ cb.timeout then
        (true, { cb with currentState := .HalfOpen })
      else
        (false, cb)
  | .HalfOpen => (true, cb)

/-- Go `CircuitBreaker.recordFailure` at time `now`: increments
`failureCount`, stamps `lastFailure`, and opens the circuit (resetting
`successCount`) when the count reaches `maxFailures`. -/
def recordFailure (cb : CircuitBreaker) (now : Int) : CircuitBreaker :=
  let failures := cb.failureCount + 1
  let cb' := { cb with failureCount := failures, lastFailure := now }
  if failures ≥ cb.maxFailures then
    { cb' with currentState := .Open, successCount := 0 }
  else
    cb'

/-- Go `CircuitBreaker.recordSuccess`: resets `failureCount`; in `HalfOpen`,
increments `successCount` and closes the circuit after 3 successes. -/
def recordSuccess (cb : CircuitBreaker) : CircuitBreaker :=
  let cb' := { cb with failureCount := 0 }
  if cb'.currentState = .HalfOpen then
    let sc := cb'.successCount + 1
    if sc ≥ 3 then
      { cb' with currentState := .Closed, successCount := 0 }
    else
      { cb' with successCount := sc }
  else
    cb'

/-- Result of `CircuitBreaker.Execute`: the wrapped operation's error is
passed through (`opError`), a rejected call yields the "circuit breaker
is open" error, and `.ok` is success. -/
inductive ExecResult where
  | ok
  | opError
  | breakerOpen
deriving DecidableEq, Repr

/-- Go `CircuitBreaker.Execute` at time `now`, where `fnFails` is whether the
wrapped operation would return an error. Returns the result, whether the
wrapped operation was invoked, and the updated breaker. -/
def Execute (cb : CircuitBreaker) (now : Int) (fnFails : Bool) :
    ExecResult × Bool × CircuitBreaker :=
  let p := canExecute cb now
  if p.1 then
    if fnFails then (.opError, true, recordFailure p.2 now)
    else (.ok, true, recordSuccess p.2)
  else
    (.breakerOpen, false, p.2)

/-- Run a sequence of `Execute` calls, each given as a pair
(wall-clock time, whether the operation fails); returns the final breaker. -/
def ExecuteRun (cb : CircuitBreaker) : List (Int × Bool) → CircuitBreaker
  | [] => cb
  | (t, f) :: rest => ExecuteRun (Execute cb t f).2.2 rest

/-- Number of `canExecute` invocations, along a sequence of calls at the
given times, that return `true` while the state seen on entry is still
`Open` (i.e. permits granted before the breaker next changes state). -/
def openPermits (cb : CircuitBreaker) : List Int → Nat
  | [] => 0
  | t :: ts =>
      let p := canExecute cb t
      (if cb.currentState = .Open then (if p.1 then 1 else 0) else 0) +
        openPermits p.2 ts

/-! ## Circuit breaker theorems -/

/-- C1 counterexample: with `maxFailures = 2`, drive the breaker Open (two
failures at t=0), let the timeout pass and record one success during the
HalfOpen probe (t=10), so `failureCount` is reset to 0. A subsequent
executed failure (t=11) is recorded while HalfOpen, yet the breaker stays
HalfOpen instead of transitioning back to Open, refuting the claim that
any single failure while HalfOpen immediately re-opens the circuit for
every value of `maxFailures`. -/
theorem C1_counterexample :
    (ExecuteRun (NewCircuitBreaker 2 10)
        [(0, true), (0, true), (10, false)]).currentState = .HalfOpen ∧
    (Execute (ExecuteRun (NewCircuitBreaker 2 10)
        [(0, true), (0, true), (10, false)]) 11 true).2.1 = true ∧
    (Execute (ExecuteRun (NewCircuitBreaker 2 10)
        [(0, true), (0, true), (10, false)]) 11 true).2.2.currentState ≠ .Open := by
  decide

/-- C1 (amended): a failure recorded by an executed operation while the
breaker is HalfOpen transitions it to Open exactly when the incremented
failure count reaches `maxFailures`; since `failureCount` is only reset
by a success, the failure on the first HalfOpen probe after the breaker
opened does re-open it, but after an intervening success a failure
re-opens only when `failureCount + 1 ≥ maxFailures`. -/
theorem C1_amended (cb : CircuitBreaker) (now : Int)
    (h : cb.currentState = .HalfOpen) :
    (Execute cb now true).2.1 = true ∧
    ((Execute cb now true).2.2.currentState = .Open ↔
      cb.failureCount + 1 ≥ cb.maxFailures) := by
  have hE : Execute cb now true = (.opError, true, recordFailure cb now) := by
    simp [Execute, canExecute, h]
  rw [hE]
  refine ⟨rfl, ?_⟩
  rcases le_or_lt cb.maxFailures (cb.failureCount + 1) with hge | hlt
  · simp [recordFailure, hge]
  · simp only [recordFailure]
    rw [if_neg (by omega)]
    simp [h]
    omega

/-- A concrete HalfOpen circuit breaker used as a witness input. -/
def cbHalfOpenW : CircuitBreaker :=
  { maxFailures := 1, timeout := 10, currentState := .HalfOpen,
    failureCount := 0, lastFailure := 0, successCount := 0 }

/-- Witness for `C1_amended` at a concrete HalfOpen breaker. -/
theorem C1_amended_witness :
    cbHalfOpenW.currentState = .HalfOpen ∧
    ((Execute cbHalfOpenW 5 true).2.1 = true ∧
      ((Execute cbHalfOpenW 5 true).2.2.currentState = .Open ↔
        cbHalfOpenW.failureCount + 1 ≥ cbHalfOpenW.maxFailures)) :=
  ⟨rfl, C1_amended cbHalfOpenW 5 rfl⟩

/-- Helper for C2: once the breaker is HalfOpen, `canExecute` never again
sees an Open entry state, so no further Open-state permit is granted. -/
theorem openPermits_cons (cb : CircuitBreaker) (t : Int) (ts : List Int) :
    openPermits cb (t :: ts) =
      (if cb.currentState = .Open then (if (canExecute cb t).1 then 1 else 0)
        else 0) + openPermits (canExecute cb t).2 ts := rfl

theorem openPermits_halfOpen (ts : List Int) (cb : CircuitBreaker)
    (h : cb.currentState = .HalfOpen) :
    openPermits cb ts = 0 := by
  induction ts generalizing cb with
  | nil => rfl
  | cons t ts ih =>
      rw [openPermits_cons, if_neg (by rw [h]; simp)]
      have hc : canExecute cb t = (true, cb) := by
        simp [canExecute, h]
      rw [hc]
      simpa using ih cb h

/-- C2: starting from an Open breaker, along any sequence of `canExecute`
invocations at most one call is permitted while the entry state is still
Open (the single permitted call is the one that flips the state to
HalfOpen); calls before the timeout elapses are rejected, and any later
permitted calls happen only after the state has changed. -/
theorem C2_open_single_probe (cb : CircuitBreaker)
    (h : cb.currentState = .Open) (ts : List Int) :
    openPermits cb ts ≤ 1 := by
  induction ts generalizing cb with
  | nil => simp [openPermits]
  | cons t ts ih =>
      rw [openPermits_cons, if_pos h]
      have hc : canExecute cb t =
          if t - cb.lastFailure ≥ cb.timeout then
            (true, { cb with currentState := .HalfOpen })
          else (false, cb) := by
        simp [canExecute, h]
      rw [hc]
      by_cases hT : t - cb.lastFailure ≥ cb.timeout
      · rw [if_pos hT]
        have h0 := openPermits_halfOpen ts { cb with currentState := .HalfOpen } rfl
        simp [h0]
      · rw [if_neg hT]
        simpa using ih cb h

/-- A concrete Open circuit breaker used as a witness input. -/
def cbOpenW : CircuitBreaker :=
  { maxFailures := 2, timeout := 10, currentState := .Open,
    failureCount := 2, lastFailure := 0, successCount := 0 }

/-- Helper for C4: an Open breaker whose timeout has not yet elapsed
rejects with the breaker-open error, does not invoke the wrapped
operation, and is left unchanged. -/
theorem Execute_open_rejects (cb : CircuitBreaker) (now : Int) (f : Bool)
    (h : cb.currentState = .Open) (hT : now - cb.lastFailure < cb.timeout) :
    Execute cb now f = (.breakerOpen, false, cb) := by
  have hc : canExecute cb now = (false, cb) := by
    simp only [canExecute, h]
    rw [if_neg (by omega)]
  simp [Execute, hc]

/-- Helper for C4: feeding a Closed breaker exactly enough consecutive
executed failures to make `failureCount` reach `maxFailures` leaves it
Open. -/
theorem ExecuteRun_closed_failures (ts : List Int) (cb : CircuitBreaker)
    (h : cb.currentState = .Closed)
    (hcount : cb.failureCount + (ts.length : Int) = cb.maxFailures)
    (hne : ts ≠ []) :
    (ExecuteRun cb (ts.map fun t => (t, true))).currentState = .Open := by
  induction ts generalizing cb with
  | nil => exact absurd rfl hne
  | cons t ts ih =>
      have hE : Execute cb t true = (.opError, true, recordFailure cb t) := by
        simp [Execute, canExecute, h]
      simp only [List.map_cons, ExecuteRun, hE]
      cases ts with
      | nil =>
          have hge : cb.failureCount + 1 ≥ cb.maxFailures := by
            simp at hcount
            omega
          simp only [recordFailure]
          rw [if_pos hge]
          simp [ExecuteRun]
      | cons t' ts' =>
          have hlt : ¬ cb.failureCount + 1 ≥ cb.maxFailures := by
            simp at hcount
            omega
          have hrf : recordFailure cb t =
              { cb with failureCount := cb.failureCount + 1, lastFailure := t } := by
            simp only [recordFailure]
            rw [if_neg hlt]
          rw [hrf]
          refine ih _ h ?_ (by simp)
          simp at hcount ⊢
          omega

/-- C4: starting from a fresh breaker with `maxFailures = n ≥ 1`, a run of
`n` consecutive executed failures (at arbitrary times) leaves the breaker
Open; and while Open, before the timeout has elapsed since the last
recorded failure, `Execute` returns the breaker-open error without
invoking the wrapped operation and without changing the breaker. -/
theorem C4_consecutive_failures_open (n timeout : Int) (hn : 1 ≤ n)
    (ts : List Int) (hlen : (ts.length : Int) = n) :
    (ExecuteRun (NewCircuitBreaker n timeout)
        (ts.map fun t => (t, true))).currentState = .Open ∧
    (∀ now f,
      now - (ExecuteRun (NewCircuitBreaker n timeout)
          (ts.map fun t => (t, true))).lastFailure <
        (ExecuteRun (NewCircuitBreaker n timeout)
          (ts.map fun t => (t, true))).timeout →
      Execute (ExecuteRun (NewCircuitBreaker n timeout)
          (ts.map fun t => (t, true))) now f =
        (.breakerOpen, false,
          ExecuteRun (NewCircuitBreaker n timeout) (ts.map fun t => (t, true)))) := by
  have hne : ts ≠ [] := by
    intro hemp
    rw [hemp] at hlen
    simp at hlen
    omega
  have hopen := ExecuteRun_closed_failures ts (NewCircuitBreaker n timeout) rfl
    (by simpa [NewCircuitBreaker] using hlen) hne
  exact ⟨hopen, fun now f hT => Execute_open_rejects _ now f hopen hT⟩

/-- Witness for `C4_consecutive_failures_open` with `maxFailures = 2` and
failures at times 0 and 1, probed at time 5 (timeout 10 not yet elapsed). -/
theorem C4_witness :
    (ExecuteRun (NewCircuitBreaker 2 10)
        ([0, 1].map fun t => (t, true))).currentState = .Open ∧
    Execute (ExecuteRun (NewCircuitBreaker 2 10)
        ([0, 1].map fun t => (t, true))) 5 true =
      (.breakerOpen, false,
        ExecuteRun (NewCircuitBreaker 2 10) ([0, 1].map fun t => (t, true))) := by
  have h := C4_consecutive_failures_open 2 10 (by decide) [0, 1] (by decide)
  exact ⟨h.1, h.2 5 true (by decide)⟩

/-- Witness for `C2_open_single_probe` at a concrete Open breaker and a
call sequence straddling the timeout boundary. -/
theorem C2_witness :
    cbOpenW.currentState = .Open ∧
    openPermits cbOpenW [5, 10, 11, 12] = 1 ∧
    openPermits cbOpenW [5, 10, 11, 12] ≤ 1 :=
  ⟨rfl, by decide, C2_open_single_probe cbOpenW rfl [5, 10, 11, 12]⟩

/-! ## Resource pool (`resilience.ResourcePool`) -/

/-- State of a `resilience.ResourcePool`: the configured memory ceiling
`maxMemoryMB`, the accounted usage `currentMemMB`, and the semaphore
modelled as the number of held slots out of `maxConcurrency`. -/
structure ResourcePool where
  maxMemoryMB : Int
  currentMemMB : Int
  activeSlots : Nat
  maxConcurrency : Nat
deriving DecidableEq, Repr

/-- Go `ResourcePool.checkMemoryLimit`: the pool's own accounting must leave
room for the request, and the live process allocation (`systemAllocMB`,
from `runtime.ReadMemStats`) must be under 80% of the ceiling. Go's
`int64` division truncates toward zero, hence `Int.tdiv`. -/
def checkMemoryLimit (rp : ResourcePool) (requestedMB systemAllocMB : Int) : Bool :=
  decide (rp.currentMemMB + requestedMB ≤ rp.maxMemoryMB) &&
    decide (systemAllocMB < Int.tdiv (rp.maxMemoryMB * 80) 100)

/-- Go `ResourcePool.addMemoryUsage`, acting on `currentMemMB`. -/
def addMemoryUsage (currentMemMB memoryMB : Int) : Int :=
  currentMemMB + memoryMB

/-- Go `ResourcePool.removeMemoryUsage`, acting on `currentMemMB`: subtracts
and clamps at zero. -/
def removeMemoryUsage (currentMemMB memoryMB : Int) : Int :=
  let m := currentMemMB - memoryMB
  if m < 0 then 0 else m

/-- Outcome of `ResourcePool.Acquire`: success, the immediate
"insufficient memory" error, or the caller's cancellation error. -/
inductive AcquireOutcome where
  | ok
  | memErr
  | cancelled
deriving DecidableEq, Repr

/-- Go `ResourcePool.Acquire`: first checks the memory limit and returns the
insufficient-memory error immediately when it fails; otherwise races the
semaphore send against the cancellation signal. `cancelledBeforeSlot`
abstracts "the caller's context was done before a concurrency slot
became available". -/
def Acquire (rp : ResourcePool) (estimatedMemMB systemAllocMB : Int)
    (cancelledBeforeSlot : Bool) : AcquireOutcome × ResourcePool :=
  if ¬ checkMemoryLimit rp estimatedMemMB systemAllocMB then
    (.memErr, rp)
  else if cancelledBeforeSlot then
    (.cancelled, rp)
  else
    (.ok, { rp with activeSlots := rp.activeSlots + 1,
                    currentMemMB := addMemoryUsage rp.currentMemMB estimatedMemMB })

/-! ## Resource pool theorems -/

/-- C3 counterexample: a pool with a 10 MB ceiling and no usage, asked to
acquire 20 MB with no cancellation, returns the insufficient-memory
error immediately instead of blocking until headroom is available:
`Acquire` fails without the caller's cancellation signal firing. -/
theorem C3_counterexample :
    (Acquire { maxMemoryMB := 10, currentMemMB := 0, activeSlots := 0,
               maxConcurrency := 4 } 20 0 false).1 = .memErr ∧
    AcquireOutcome.memErr ≠ AcquireOutcome.cancelled := by
  decide

/-- C3 (amended): when memory headroom is unavailable, `Acquire` does not
block: it returns the insufficient-memory error immediately, regardless
of the cancellation signal, leaving the pool unchanged; only the
concurrency-slot wait is subject to cancellation. -/
theorem C3_amended (rp : ResourcePool) (estimatedMemMB systemAllocMB : Int)
    (canc : Bool) (h : checkMemoryLimit rp estimatedMemMB systemAllocMB = false) :
    Acquire rp estimatedMemMB systemAllocMB canc = (.memErr, rp) := by
  simp [Acquire, h]

/-- Witness for `C3_amended` at a concrete over-budget request. -/
theorem C3_amended_witness :
    checkMemoryLimit { maxMemoryMB := 10, currentMemMB := 0, activeSlots := 0,
                       maxConcurrency := 4 } 20 0 = false ∧
    Acquire { maxMemoryMB := 10, currentMemMB := 0, activeSlots := 0,
              maxConcurrency := 4 } 20 0 false =
      (.memErr, { maxMemoryMB := 10, currentMemMB := 0, activeSlots := 0,
                  maxConcurrency := 4 }) :=
  ⟨by decide, C3_amended _ 20 0 false (by decide)⟩

/-- A memory-accounting operation on the pool: the `addMemoryUsage` call
performed by a successful `Acquire(cost)`, or the `removeMemoryUsage`
call performed by `Release(cost)`. -/
inductive PoolOp where
  | acquire (cost : Int)
  | release (cost : Int)
deriving DecidableEq, Repr

/-- Run a sequence of memory-accounting operations against
`currentMemMB`, exactly as `addMemoryUsage`/`removeMemoryUsage` do. -/
def runMemOps (currentMemMB : Int) : List PoolOp → Int
  | [] => currentMemMB
  | .acquire c :: rest => runMemOps (addMemoryUsage currentMemMB c) rest
  | .release c :: rest => runMemOps (removeMemoryUsage currentMemMB c) rest

/-- Sum of the costs of the `acquire` operations in a sequence. -/
def acquireSum : List PoolOp → Int
  | [] => 0
  | .acquire c :: rest => c + acquireSum rest
  | .release _ :: rest => acquireSum rest

/-- Sum of the costs of the `release` operations in a sequence. -/
def releaseSum : List PoolOp → Int
  | [] => 0
  | .acquire _ :: rest => releaseSum rest
  | .release c :: rest => c + releaseSum rest

/-- Every operation in the sequence carries a non-negative cost. -/
def nonnegCosts : List PoolOp → Prop
  | [] => True
  | .acquire c :: rest => 0 ≤ c ∧ nonnegCosts rest
  | .release c :: rest => 0 ≤ c ∧ nonnegCosts rest

instance : DecidablePred nonnegCosts := by
  intro ops
  induction ops with
  | nil => exact .isTrue trivial
  | cons op rest ih =>
      cases op with
      | acquire c => exact instDecidableAnd
      | release c => exact instDecidableAnd

/-- Helper for C6: with non-negative costs, starting from a non-negative
balance, `currentMemMB` never goes negative under any operation
sequence, including unmatched or duplicate releases. -/
theorem runMemOps_nonneg (ops : List PoolOp) (s : Int) (hs : 0 ≤ s)
    (hc : nonnegCosts ops) : 0 ≤ runMemOps s ops := by
  induction ops generalizing s with
  | nil => exact hs
  | cons op rest ih =>
      cases op with
      | acquire c =>
          have h1 : 0 ≤ c := hc.1
          exact ih (addMemoryUsage s c) (by simp only [addMemoryUsage]; omega) hc.2
      | release c =>
          refine ih (removeMemoryUsage s c) ?_ hc.2
          simp only [removeMemoryUsage]
          split <;> omega

/-- Helper for C6: when every prefix of the sequence has released no more
than it has acquired (relative to a non-negative starting balance), the
zero-clamp in `removeMemoryUsage` never fires and the final balance is
the start plus the net acquired amount. -/
theorem runMemOps_balanced (ops : List PoolOp) (s : Int) (hs : 0 ≤ s)
    (hc : nonnegCosts ops)
    (hpre : ∀ n, n ≤ ops.length →
      releaseSum (ops.take n) ≤ s + acquireSum (ops.take n)) :
    runMemOps s ops = s + acquireSum ops - releaseSum ops := by
  induction ops generalizing s with
  | nil => simp [runMemOps, acquireSum, releaseSum]
  | cons op rest ih =>
      cases op with
      | acquire c =>
          have h1 : 0 ≤ c := hc.1
          have h' := ih (s + c) (by omega) hc.2
            (fun n hn => by
              have := hpre (n + 1) (by simpa using hn)
              simp only [List.take_succ_cons, acquireSum, releaseSum] at this
              omega)
          show runMemOps (addMemoryUsage s c) rest =
            s + acquireSum (.acquire c :: rest) - releaseSum (.acquire c :: rest)
          rw [show addMemoryUsage s c = s + c from rfl, h']
          simp only [acquireSum, releaseSum]
          omega
      | release c =>
          have hc1 : c ≤ s := by
            have := hpre 1 (by simp)
            simpa [List.take_succ_cons, acquireSum, releaseSum] using this
          have hrm : removeMemoryUsage s c = s - c := by
            simp only [removeMemoryUsage]
            rw [if_neg (by omega)]
          have h' := ih (s - c) (by omega) hc.2
            (fun n hn => by
              have := hpre (n + 1) (by simpa using hn)
              simp only [List.take_succ_cons, acquireSum, releaseSum] at this
              omega)
          show runMemOps (removeMemoryUsage s c) rest =
            s + acquireSum (.release c :: rest) - releaseSum (.release c :: rest)
          rw [hrm, h']
          simp only [acquireSum, releaseSum]
          omega

/-- C6: for a resource pool's `currentMemMB` accounting with non-negative
costs and a non-negative starting balance: a matched sequence of
Acquire/Release operations (every prefix releases at most what it has
acquired, and the totals agree) restores the starting balance, and under
any sequence at all — including unmatched or duplicate releases — the
balance never goes negative. -/
theorem C6_memory_accounting (s : Int) (hs : 0 ≤ s)
    (ops : List PoolOp) (hc : nonnegCosts ops) :
    ((∀ n, n ≤ ops.length →
        releaseSum (ops.take n) ≤ acquireSum (ops.take n)) →
      releaseSum ops = acquireSum ops →
      runMemOps s ops = s) ∧
    0 ≤ runMemOps s ops := by
  constructor
  · intro hpre htot
    rw [runMemOps_balanced ops s hs hc
      (fun n hn => le_trans (hpre n hn) (by omega)), htot]
    ring
  · exact runMemOps_nonneg ops s hs hc

/-- Witness for `C6_memory_accounting`: an interleaved matched sequence
restores the balance, and an unmatched duplicate release stays at 0. -/
theorem C6_witness :
    runMemOps 2 [.acquire 5, .acquire 3, .release 5, .release 3] = 2 ∧
    0 ≤ runMemOps 2 [.acquire 5, .acquire 3, .release 5, .release 3] :=
  ⟨(C6_memory_accounting 2 (by decide) _ (by decide)).1
      (by decide) (by decide),
    (C6_memory_accounting 2 (by decide) _ (by decide)).2⟩

/-! ## Retry with exponential backoff (`resilience.ExecuteWithRetry`) -/

/-- Go `resilience.RetryConfig`; durations are modelled as exact rationals
(Go stores `time.Duration` nanoseconds and multiplies via `float64`). -/
structure RetryConfig where
  MaxAttempts : Nat
  InitialDelay : ℚ
  MaxDelay : ℚ
  BackoffFactor : ℚ

/-- How a retry run ends: the operation succeeded, the context's
cancellation error was reported, or all attempts were exhausted (the
composite "failed after N attempts" error). -/
inductive RetryOutcome where
  | success
  | cancelledErr
  | exhausted
deriving DecidableEq, Repr

/-- Observable trace of one `ExecuteWithRetry` run: how it ended, how
many times the operation was invoked, and the full sleep durations in
the order they occurred. -/
structure RetryTrace where
  outcome : RetryOutcome
  invocations : Nat
  sleeps : List ℚ
deriving DecidableEq, Repr

/-- The backoff update at the bottom of the retry loop: multiply the
delay by the factor and cap it at `MaxDelay`. -/
def nextDelay (maxDelay backoff d : ℚ) : ℚ :=
  let d' := d * backoff
  if d' > maxDelay then maxDelay else d'

/-- The delay in effect after `n` backoff updates starting from `d`. -/
def delayIter (maxDelay backoff : ℚ) (d : ℚ) : Nat → ℚ
  | 0 => d
  | n + 1 => delayIter maxDelay backoff (nextDelay maxDelay backoff d) n

/-- The loop of `ExecuteWithRetry`. `fn j` is whether the operation
succeeds on (1-based) attempt `j`; `canc j` whether `ctx.Err()` is
non-nil when checked after a failed attempt `j`; `cancSleep j` whether
the context is cancelled during the backoff sleep following attempt `j`.
`remaining` is the number of attempts still allowed (initially
`MaxAttempts`), `attempt` the current attempt number, `invs` and
`sleeps` the accumulators (sleeps held in reverse order). -/
def retryAux (fn canc cancSleep : Nat → Bool) (maxDelay backoff : ℚ) :
    Nat → Nat → ℚ → Nat → List ℚ → RetryTrace
  | 0, _, _, invs, sleeps => ⟨.exhausted, invs, sleeps.reverse⟩
  | remaining + 1, attempt, delay, invs, sleeps =>
      if fn attempt then ⟨.success, invs + 1, sleeps.reverse⟩
      else if canc attempt then ⟨.cancelledErr, invs + 1, sleeps.reverse⟩
      else if remaining = 0 then ⟨.exhausted, invs + 1, sleeps.reverse⟩
      else if cancSleep attempt then ⟨.cancelledErr, invs + 1, sleeps.reverse⟩
      else
        retryAux fn canc cancSleep maxDelay backoff remaining (attempt + 1)
          (nextDelay maxDelay backoff delay) (invs + 1) (delay :: sleeps)

/-- Go `resilience.ExecuteWithRetry`, as the observable trace of a run. -/
def ExecuteWithRetry (config : RetryConfig) (fn canc cancSleep : Nat → Bool) :
    RetryTrace :=
  retryAux fn canc cancSleep config.MaxDelay config.BackoffFactor
    config.MaxAttempts 1 config.InitialDelay 0 []

/-! ## Retry theorems -/

/-- Helper for C5: an uncancelled run whose operation first succeeds at
attempt `k` within the remaining budget invokes the operation on every
attempt up to `k` and sleeps exactly once per failed attempt. -/
theorem retryAux_first_success (fn canc cancSleep : Nat → Bool)
    (maxDelay backoff : ℚ) (k : Nat) (hk : fn k = true)
    (hprev : ∀ j, 1 ≤ j → j < k → fn j = false)
    (hnc : ∀ i, canc i = false) (hncs : ∀ i, cancSleep i = false) :
    ∀ remaining attempt delay invs sleeps, 1 ≤ attempt → attempt ≤ k →
      k < attempt + remaining →
      retryAux fn canc cancSleep maxDelay backoff remaining attempt delay
          invs sleeps =
        ⟨.success, invs + (k - attempt) + 1,
          sleeps.reverse ++
            (List.range (k - attempt)).map (delayIter maxDelay backoff delay)⟩ := by
  intro remaining
  induction remaining with
  | zero => intro attempt delay invs sleeps h1 h2 h3; omega
  | succ r ih =>
      intro attempt delay invs sleeps h1 h2 h3
      rcases eq_or_lt_of_le h2 with heq | hlt
      · subst heq
        simp [retryAux, hk]
      · have hfa : fn attempt = false := hprev attempt h1 hlt
        have hr : ¬ r = 0 := by omega
        rw [retryAux]
        simp only [hfa, hnc, hr, hncs, Bool.false_eq_true, if_false]
        rw [ih (attempt + 1) (nextDelay maxDelay backoff delay) (invs + 1)
          (delay :: sleeps) (by omega) (by omega) (by omega)]
        have hrange : (List.range (k - attempt)).map
            (delayIter maxDelay backoff delay) =
            delay :: (List.range (k - (attempt + 1))).map
              (delayIter maxDelay backoff (nextDelay maxDelay backoff delay)) := by
          have hm : k - attempt = (k - (attempt + 1)) + 1 := by omega
          rw [hm, List.range_succ_eq_map, List.map_cons, List.map_map]
          rfl
        rw [hrange]
        simp only [List.reverse_cons, List.append_assoc, List.singleton_append]
        congr 1
        omega

/-- C5: in an uncancelled `ExecuteWithRetry` run whose operation first
succeeds on attempt `k ≤ MaxAttempts`, the operation is invoked exactly
`k` times and exactly `k - 1` backoff sleeps occur — one before each of
attempts 2..k and none after the final, successful attempt. -/
theorem C5_retry_success_invocations (config : RetryConfig)
    (fn canc cancSleep : Nat → Bool) (k : Nat)
    (hk1 : 1 ≤ k) (hk : fn k = true)
    (hprev : ∀ j, 1 ≤ j → j < k → fn j = false)
    (hkmax : k ≤ config.MaxAttempts)
    (hnc : ∀ i, canc i = false) (hncs : ∀ i, cancSleep i = false) :
    (ExecuteWithRetry config fn canc cancSleep).outcome = .success ∧
    (ExecuteWithRetry config fn canc cancSleep).invocations = k ∧
    (ExecuteWithRetry config fn canc cancSleep).sleeps.length = k - 1 := by
  rw [ExecuteWithRetry, retryAux_first_success fn canc cancSleep
    config.MaxDelay config.BackoffFactor k hk hprev hnc hncs
    config.MaxAttempts 1 config.InitialDelay 0 [] (by omega) hk1 (by omega)]
  refine ⟨rfl, ?_, ?_⟩
  · show 0 + (k - 1) + 1 = k
    omega
  · show ([].reverse ++ (List.range (k - 1)).map
      (delayIter config.MaxDelay config.BackoffFactor config.InitialDelay)).length = k - 1
    simp

/-- Witness for `C5_retry_success_invocations`: default-like config, the
operation fails once then succeeds on attempt 2 of 3. -/
theorem C5_witness :
    (ExecuteWithRetry ⟨3, 100, 5000, 2⟩ (fun j => decide (2 ≤ j))
        (fun _ => false) (fun _ => false)).outcome = .success ∧
    (ExecuteWithRetry ⟨3, 100, 5000, 2⟩ (fun j => decide (2 ≤ j))
        (fun _ => false) (fun _ => false)).invocations = 2 ∧
    (ExecuteWithRetry ⟨3, 100, 5000, 2⟩ (fun j => decide (2 ≤ j))
        (fun _ => false) (fun _ => false)).sleeps.length = 2 - 1 :=
  C5_retry_success_invocations ⟨3, 100, 5000, 2⟩ _ _ _ 2
    (by decide) (by decide) (fun j h1 h2 => by simp; omega)
    (by decide) (fun _ => rfl) (fun _ => rfl)

/-- Helper for C7: an uncancelled run whose operation fails on every
attempt exhausts all `remaining` attempts and sleeps once per attempt
except the last. -/
theorem retryAux_all_fail (fn canc cancSleep : Nat → Bool)
    (maxDelay backoff : ℚ) (hfail : ∀ j, 1 ≤ j → fn j = false)
    (hnc : ∀ i, canc i = false) (hncs : ∀ i, cancSleep i = false) :
    ∀ remaining attempt delay invs sleeps, 1 ≤ attempt → 1 ≤ remaining →
      retryAux fn canc cancSleep maxDelay backoff remaining attempt delay
          invs sleeps =
        ⟨.exhausted, invs + remaining,
          sleeps.reverse ++
            (List.range (remaining - 1)).map
              (delayIter maxDelay backoff delay)⟩ := by
  intro remaining
  induction remaining with
  | zero => intro attempt delay invs sleeps h1 h2; omega
  | succ r ih =>
      intro attempt delay invs sleeps h1 h2
      have hfa : fn attempt = false := hfail attempt h1
      rcases Nat.eq_zero_or_pos r with hr0 | hrpos
      · subst hr0
        rw [retryAux]
        simp [hfa, hnc, hncs]
      · have hr : ¬ r = 0 := by omega
        rw [retryAux]
        simp only [hfa, hnc, hr, hncs, Bool.false_eq_true, if_false]
        rw [ih (attempt + 1) (nextDelay maxDelay backoff delay) (invs + 1)
          (delay :: sleeps) (by omega) hrpos]
        have hrange : (List.range (r + 1 - 1)).map
            (delayIter maxDelay backoff delay) =
            delay :: (List.range (r - 1)).map
              (delayIter maxDelay backoff (nextDelay maxDelay backoff delay)) := by
          have hm : r + 1 - 1 = (r - 1) + 1 := by omega
          rw [hm, List.range_succ_eq_map, List.map_cons, List.map_map]
          rfl
        rw [hrange]
        simp only [List.reverse_cons, List.append_assoc, List.singleton_append]
        congr 1
        omega

/-- Helper for C7: when the factor is at least 1 and the initial delay is
within the cap, the iterated multiply-and-cap backoff has the closed form
`min (d · f^n) m`. -/
theorem delayIter_min (m f : ℚ) (hf : 1 ≤ f) :
    ∀ (n : Nat) (d : ℚ), 0 ≤ d → d ≤ m →
      delayIter m f d n = min (d * f ^ n) m := by
  intro n
  induction n with
  | zero =>
      intro d hd0 hdm
      simp only [delayIter, pow_zero, mul_one]
      exact (min_eq_left hdm).symm
  | succ n ih =>
      intro d hd0 hdm
      have hm0 : 0 ≤ m := le_trans hd0 hdm
      rw [delayIter]
      by_cases hcap : d * f > m
      · have hnd : nextDelay m f d = m := by
          simp only [nextDelay]
          rw [if_pos hcap]
        rw [hnd, ih m hm0 le_rfl]
        have hf0 : (0 : ℚ) ≤ f := le_trans zero_le_one hf
        have hfn : (1 : ℚ) ≤ f ^ n := one_le_pow₀ hf
        have h1 : m ≤ m * f ^ n := le_mul_of_one_le_right hm0 hfn
        have h2 : m ≤ d * f ^ (n + 1) := by
          calc m ≤ m * f ^ n := h1
          _ ≤ (d * f) * f ^ n :=
                mul_le_mul_of_nonneg_right (le_of_lt hcap) (by positivity)
          _ = d * f ^ (n + 1) := by ring
        rw [min_eq_right h1, min_eq_right h2]
      · have hle : d * f ≤ m := le_of_not_lt hcap
        have hnd : nextDelay m f d = d * f := by
          simp only [nextDelay]
          rw [if_neg hcap]
        rw [hnd, ih (d * f) (by positivity) hle]
        have : d * f * f ^ n = d * f ^ (n + 1) := by ring
        rw [this]

/-- C7 counterexample: with `InitialDelay = 1`, `BackoffFactor = 2`,
`MaxDelay = 100`, `MaxAttempts = 3` and an always-failing operation, the
delay slept before attempt 2 (k = 1) is 1 — the initial delay — whereas
the claim's formula `min(d0 · f^k, m) = min(1·2, 100)` predicts 2. -/
theorem C7_counterexample :
    (ExecuteWithRetry ⟨3, 1, 100, 2⟩ (fun _ => false) (fun _ => false)
        (fun _ => false)).sleeps = [1, 2] ∧
    min ((1 : ℚ) * 2 ^ 1) 100 = 2 ∧
    ((1 : ℚ) = 2 → False) := by
  refine ⟨?_, by norm_num, by norm_num⟩
  show (retryAux (fun _ => false) (fun _ => false) (fun _ => false)
    100 2 3 1 1 0 []).sleeps = [1, 2]
  rw [retryAux_all_fail (fun _ => false) (fun _ => false) (fun _ => false)
    100 2 (fun _ _ => rfl) (fun _ => rfl) (fun _ => rfl) 3 1 1 0 []
    le_rfl (by norm_num)]
  show [].reverse ++ (List.range 2).map (delayIter 100 2 1) = [1, 2]
  norm_num [List.range_succ, delayIter, nextDelay]

/-- C7 (amended): in an uncancelled, always-failing run with
`BackoffFactor ≥ 1` and `InitialDelay ≤ MaxDelay` (both non-negative),
the backoff delay slept before attempt `k+1` equals
`min(InitialDelay · BackoffFactor^(k−1), MaxDelay)` — the exponent is
`k−1`, not `k`, since the first sleep uses the initial delay — for every
`k` from 1 to `MaxAttempts − 1`. -/
theorem C7_amended (config : RetryConfig) (fn canc cancSleep : Nat → Bool)
    (hfail : ∀ j, 1 ≤ j → fn j = false)
    (hnc : ∀ i, canc i = false) (hncs : ∀ i, cancSleep i = false)
    (hd0 : 0 ≤ config.InitialDelay) (hdm : config.InitialDelay ≤ config.MaxDelay)
    (hf : 1 ≤ config.BackoffFactor)
    (k : Nat) (hk1 : 1 ≤ k) (hk : k ≤ config.MaxAttempts - 1) :
    (ExecuteWithRetry config fn canc cancSleep).sleeps.get? (k - 1) =
      some (min (config.InitialDelay * config.BackoffFactor ^ (k - 1))
        config.MaxDelay) := by
  rw [ExecuteWithRetry, retryAux_all_fail fn canc cancSleep
    config.MaxDelay config.BackoffFactor hfail hnc hncs
    config.MaxAttempts 1 config.InitialDelay 0 [] le_rfl (by omega)]
  simp only [List.reverse_nil, List.nil_append]
  rw [List.get?_map, List.get?_range (by omega)]
  simp only [Option.map_some']
  rw [delayIter_min config.MaxDelay config.BackoffFactor hf (k - 1)
    config.InitialDelay hd0 hdm]

/-- Witness for `C7_amended` with the default retry configuration (100ms
initial delay, factor 2, 5s cap, 3 attempts) at k = 2. -/
theorem C7_amended_witness :
    (ExecuteWithRetry ⟨3, 100, 5000, 2⟩ (fun _ => false) (fun _ => false)
        (fun _ => false)).sleeps.get? (2 - 1) =
      some (min ((100 : ℚ) * 2 ^ (2 - 1)) 5000) :=
  C7_amended ⟨3, 100, 5000, 2⟩ _ _ _ (fun _ _ => rfl) (fun _ => rfl)
    (fun _ => rfl) (by norm_num) (by norm_num) (by norm_num) 2
    (by decide) (by decide)

/-! ## Metrics domain model (`pkg/metrics/types.go`) -/

/-- Go `metrics.Row`: one result row. Memory quantities in mebibytes as
exact rationals (Go `float64`), CPU in millicores (Go `int64`). -/
structure Row where
  Namespace : String
  Name : String
  UsageMi : ℚ
  LimitMi : ℚ
  UsageMc : Int
  LimitMc : Int
  Percentage : ℚ
deriving DecidableEq, Repr

/-- One container of a pod specification: the resource limits that
`NewPodSpecInfo` reads — memory limit in bytes (`limit.Value()`) and CPU
limit in millicores (`limit.MilliValue()`), each present only when the
container declares it. -/
structure ContainerSpec where
  name : String
  memLimitBytes : Option Int
  cpuLimitMc : Option Int
deriving DecidableEq, Repr

/-- Go `corev1.Pod`, restricted to the fields the collector reads. -/
structure Pod where
  Namespace : String
  Name : String
  Labels : List (String × String)
  Containers : List ContainerSpec
deriving DecidableEq, Repr

/-- Go `metrics.ContainerMetrics`: usage quantities for one container —
memory usage in bytes (`qty.Value()`) and CPU usage in millicores
(`qty.MilliValue()`), each present only when the usage map carries the
resource key. -/
structure ContainerMetrics where
  Name : String
  memUsageBytes : Option Int
  cpuUsageMc : Option Int
deriving DecidableEq, Repr

/-- Go `metrics.PodMetrics`, restricted to the fields the row computation
reads. -/
structure PodMetrics where
  Namespace : String
  Name : String
  Containers : List ContainerMetrics
deriving DecidableEq, Repr

/-- Go `metrics.PodSpecInfo`: pre-computed limits for a pod. The Go
`map[string]...` fields are modelled as lookup functions. -/
structure PodSpecInfo where
  Pod : Pod
  MemoryLimitMi : ℚ
  CPULimitMc : Int
  ContainerMemoryLimits : String → Option ℚ
  ContainerCPULimits : String → Option Int

/-- Go map assignment `m[k] = v`: later inserts win on lookup. -/
def mapInsert {α : Type} (m : String → Option α) (k : String) (v : α) :
    String → Option α :=
  fun k' => if k' = k then some v else m k'

/-- Body of the `NewPodSpecInfo` loop over `pod.Spec.Containers`. -/
def podSpecStep (info : PodSpecInfo) (c : ContainerSpec) : PodSpecInfo :=
  let info1 :=
    match c.memLimitBytes with
    | some b =>
        let memoryMi : ℚ := (b : ℚ) / (1024 * 1024)
        { info with
            MemoryLimitMi := info.MemoryLimitMi + memoryMi,
            ContainerMemoryLimits :=
              mapInsert info.ContainerMemoryLimits c.name memoryMi }
    | none => info
  match c.cpuLimitMc with
  | some mc =>
      { info1 with
          CPULimitMc := info1.CPULimitMc + mc,
          ContainerCPULimits :=
            mapInsert info1.ContainerCPULimits c.name mc }
  | none => info1

/-- Go `metrics.NewPodSpecInfo`: pre-computes aggregate and per-container
limits from the pod specification. -/
def NewPodSpecInfo (pod : Pod) : PodSpecInfo :=
  pod.Containers.foldl podSpecStep
    { Pod := pod, MemoryLimitMi := 0, CPULimitMc := 0,
      ContainerMemoryLimits := fun _ => none,
      ContainerCPULimits := fun _ => none }

/-- Go `PodSpecInfo.HasMemoryLimit`. -/
def HasMemoryLimit (p : PodSpecInfo) : Bool :=
  decide (p.MemoryLimitMi > 0)

/-- Go `PodSpecInfo.HasCPULimit`. -/
def HasCPULimit (p : PodSpecInfo) : Bool :=
  decide (p.CPULimitMc > 0)

/-- Go `PodSpecInfo.ContainerHasMemoryLimit`. -/
def ContainerHasMemoryLimit (p : PodSpecInfo) (containerName : String) : Bool :=
  match p.ContainerMemoryLimits containerName with
  | some limit => decide (limit > 0)
  | none => false

/-- Go `PodSpecInfo.ContainerHasCPULimit`. -/
def ContainerHasCPULimit (p : PodSpecInfo) (containerName : String) : Bool :=
  match p.ContainerCPULimits containerName with
  | some limit => decide (limit > 0)
  | none => false

/-! ## Row computation (`pkg/collector/collector.go`) -/

/-- Go `config.Mode`. -/
inductive Mode where
  | pods
  | containers
deriving DecidableEq, Repr

/-- Go `config.ResourceKind`. -/
inductive ResourceKind where
  | memory
  | cpu
deriving DecidableEq, Repr

/-- Body of the memory-usage accumulation loop in
`Collector.computePodMemoryRow`: containers without a (positive) memory
limit are skipped, and a container missing the memory usage key
contributes nothing. -/
def podMemUsageStep (podInfo : PodSpecInfo) (acc : ℚ)
    (container : ContainerMetrics) : ℚ :=
  if ¬ ContainerHasMemoryLimit podInfo container.Name then acc
  else
    match container.memUsageBytes with
    | some qty => acc + (qty : ℚ) / (1024 * 1024)
    | none => acc

/-- Go `Collector.computePodMemoryRow`. -/
def computePodMemoryRow (pm : PodMetrics) (podInfo : PodSpecInfo) : Option Row :=
  if ¬ HasMemoryLimit podInfo then none
  else
    let totalUsageMi := pm.Containers.foldl (podMemUsageStep podInfo) 0
    let percentage := totalUsageMi / podInfo.MemoryLimitMi * 100
    some { Namespace := pm.Namespace, Name := pm.Name,
           UsageMi := totalUsageMi, LimitMi := podInfo.MemoryLimitMi,
           UsageMc := 0, LimitMc := 0, Percentage := percentage }

/-- Body of the CPU-usage accumulation loop in
`Collector.computePodCPURow`. -/
def podCPUUsageStep (podInfo : PodSpecInfo) (acc : Int)
    (container : ContainerMetrics) : Int :=
  if ¬ ContainerHasCPULimit podInfo container.Name then acc
  else
    match container.cpuUsageMc with
    | some qty => acc + qty
    | none => acc

/-- Go `Collector.computePodCPURow`. -/
def computePodCPURow (pm : PodMetrics) (podInfo : PodSpecInfo) : Option Row :=
  if ¬ HasCPULimit podInfo then none
  else
    let totalUsageMc := pm.Containers.foldl (podCPUUsageStep podInfo) 0
    let percentage := (totalUsageMc : ℚ) / (podInfo.CPULimitMc : ℚ) * 100
    some { Namespace := pm.Namespace, Name := pm.Name,
           UsageMi := 0, LimitMi := 0,
           UsageMc := totalUsageMc, LimitMc := podInfo.CPULimitMc,
           Percentage := percentage }

/-- Go `Collector.computePodRow`. -/
def computePodRow (pm : PodMetrics) (podInfo : PodSpecInfo)
    (resource : ResourceKind) : Option Row :=
  match resource with
  | .memory => computePodMemoryRow pm podInfo
  | .cpu => computePodCPURow pm podInfo

/-- Go `Collector.computeContainerMemoryRow`. -/
def computeContainerMemoryRow (ns containerName : String)
    (container : ContainerMetrics) (podInfo : PodSpecInfo) : Option Row :=
  match podInfo.ContainerMemoryLimits container.Name with
  | none => none
  | some limitMi =>
      if limitMi ≤ 0 then none
      else
        let usageMi :=
          match container.memUsageBytes with
          | some qty => (qty : ℚ) / (1024 * 1024)
          | none => 0
        some { Namespace := ns, Name := containerName,
               UsageMi := usageMi, LimitMi := limitMi,
               UsageMc := 0, LimitMc := 0,
               Percentage := usageMi / limitMi * 100 }

/-- Go `Collector.computeContainerCPURow`. -/
def computeContainerCPURow (ns containerName : String)
    (container : ContainerMetrics) (podInfo : PodSpecInfo) : Option Row :=
  match podInfo.ContainerCPULimits container.Name with
  | none => none
  | some limitMc =>
      if limitMc ≤ 0 then none
      else
        let usageMc :=
          match container.cpuUsageMc with
          | some qty => qty
          | none => 0
        some { Namespace := ns, Name := containerName,
               UsageMi := 0, LimitMi := 0,
               UsageMc := usageMc, LimitMc := limitMc,
               Percentage := (usageMc : ℚ) / (limitMc : ℚ) * 100 }

/-- Go `Collector.computeContainerRows`. -/
def computeContainerRows (pm : PodMetrics) (podInfo : PodSpecInfo)
    (resource : ResourceKind) : List Row :=
  pm.Containers.foldl
    (fun rows container =>
      let containerName := pm.Name ++ ":" ++ container.Name
      match resource with
      | .memory =>
          match computeContainerMemoryRow pm.Namespace containerName
              container podInfo with
          | some row => rows ++ [row]
          | none => rows
      | .cpu =>
          match computeContainerCPURow pm.Namespace containerName
              container podInfo with
          | some row => rows ++ [row]
          | none => rows) []

/-! ## Collection and correlation (`Collector.Collect`) -/

/-- Go `config.Options`, restricted to the fields the collector reads.
The compiled `ExcludeNamespaces` regexp is modelled as a match predicate
(or `none` when unset). -/
structure Options where
  Mode : Mode
  Resource : ResourceKind
  ExcludeNamespaces : Option (String → Bool)
  LabelSelector : String

/-- Go `Collector.computeUsageRows`: joins every metric sample against the
pod index and collects the computed rows; samples with no indexed pod
are silently skipped. Always succeeds (the Go function returns a nil
error). -/
def computeUsageRows (podMetrics : List PodMetrics)
    (podIndex : String → Option PodSpecInfo) (opts : Options) :
    Except String (List Row) :=
  .ok (podMetrics.foldl
    (fun rows pm =>
      match podIndex (pm.Namespace ++ "/" ++ pm.Name) with
      | none => rows
      | some podInfo =>
          match opts.Mode with
          | .pods =>
              match computePodRow pm podInfo opts.Resource with
              | some row => rows ++ [row]
              | none => rows
          | .containers => rows ++ computeContainerRows pm podInfo opts.Resource)
    [])

/-- The pod-index construction loop of `Collector.correlateData`:
namespace-excluded and label-unmatched pods are skipped; index entries
are keyed by `namespace + "/" + name`, last write winning. -/
def buildPodIndex (pods : List Pod) (opts : Options)
    (labelSelector : Option (List (String × String) → Bool)) :
    String → Option PodSpecInfo :=
  pods.foldl
    (fun idx pod =>
      if (match opts.ExcludeNamespaces with
          | some ex => ex pod.Namespace
          | none => false) then idx
      else if (match labelSelector with
          | some sel => ! sel pod.Labels
          | none => false) then idx
      else mapInsert idx (pod.Namespace ++ "/" ++ pod.Name) (NewPodSpecInfo pod))
    (fun _ => none)

/-- Go `Collector.correlateData`. `parseLabels` models the external
`labels.Parse`: it yields a label-set match predicate or a parse error.
As in the Go code, a parse error is fatal only when the selector string
is non-empty; otherwise the (nil) selector simply applies no filter. -/
def correlateData (pods : List Pod) (podMetrics : List PodMetrics)
    (opts : Options)
    (parseLabels : String → Except String (List (String × String) → Bool)) :
    Except String (List Row) :=
  match parseLabels opts.LabelSelector with
  | .error e =>
      if opts.LabelSelector ≠ "" then
        .error ("invalid label selector " ++ opts.LabelSelector ++ ": " ++ e)
      else
        computeUsageRows podMetrics (buildPodIndex pods opts none) opts
  | .ok sel =>
      computeUsageRows podMetrics (buildPodIndex pods opts (some sel)) opts

/-- Go `Collector.Collect` after the concurrent fetch phase: the two fetch
outcomes are passed as parameters (they are remote API calls); the
errgroup's first-error-wins aggregation is modelled with the pods error
taking precedence. An empty pod list or empty metrics list is rejected
with an error before any correlation happens. -/
def Collect (podsRes : Except String (List Pod))
    (metricsRes : Except String (List PodMetrics)) (opts : Options)
    (parseLabels : String → Except String (List (String × String) → Bool)) :
    Except String (List Row) :=
  match podsRes with
  | .error e => .error ("failed to fetch pods: " ++ e)
  | .ok podsList =>
      match metricsRes with
      | .error e => .error ("failed to fetch pod metrics: " ++ e)
      | .ok metricsList =>
          if podsList.isEmpty then
            .error "no pods found - check namespace and label selector"
          else if metricsList.isEmpty then
            .error "no pod metrics found - ensure metrics-server is installed and running"
          else
            correlateData podsList metricsList opts parseLabels

/-! ## Collector theorems -/

/-- C10: whenever the fetch phase yields no data — the fetched pod list
is empty or the fetched metrics list is empty — `Collect` does not return
an empty result as a success: it returns an error (and hence no row
slice). -/
theorem C10_collect_empty_is_error (podsRes : Except String (List Pod))
    (metricsRes : Except String (List PodMetrics)) (opts : Options)
    (parseLabels : String → Except String (List (String × String) → Bool))
    (h : podsRes = .ok [] ∨ metricsRes = .ok []) :
    ∃ e, Collect podsRes metricsRes opts parseLabels = .error e := by
  rcases h with h | h
  · subst h
    match metricsRes with
    | .error e => exact ⟨_, rfl⟩
    | .ok l => exact ⟨_, rfl⟩
  · subst h
    match podsRes with
    | .error e => exact ⟨_, rfl⟩
    | .ok [] => exact ⟨_, rfl⟩
    | .ok (p :: ps) => exact ⟨_, rfl⟩

/-- The memory-mebibytes contribution of one container spec to the
aggregate `MemoryLimitMi`. -/
def memContribution (c : ContainerSpec) : ℚ :=
  match c.memLimitBytes with
  | some b => (b : ℚ) / (1024 * 1024)
  | none => 0

theorem podSpecStep_CPULimitMc_none (info : PodSpecInfo) (c : ContainerSpec)
    (h : c.cpuLimitMc = none) :
    (podSpecStep info c).CPULimitMc = info.CPULimitMc := by
  simp only [podSpecStep, h]
  cases hm : c.memLimitBytes <;> simp [hm]

theorem foldl_CPULimitMc (cs : List ContainerSpec) (init : PodSpecInfo)
    (h : ∀ c ∈ cs, c.cpuLimitMc = none) :
    (cs.foldl podSpecStep init).CPULimitMc = init.CPULimitMc := by
  induction cs generalizing init with
  | nil => rfl
  | cons c cs ih =>
      rw [List.foldl_cons,
        ih _ (fun c' hc' => h c' (List.mem_cons_of_mem _ hc')),
        podSpecStep_CPULimitMc_none _ _ (h c (List.mem_cons_self _ _))]

theorem podSpecStep_MemoryLimitMi (info : PodSpecInfo) (c : ContainerSpec) :
    (podSpecStep info c).MemoryLimitMi =
      info.MemoryLimitMi + memContribution c := by
  simp only [podSpecStep, memContribution]
  cases hm : c.memLimitBytes <;> cases hc : c.cpuLimitMc <;> simp [hm, hc]

theorem foldl_MemoryLimitMi (cs : List ContainerSpec) (init : PodSpecInfo) :
    (cs.foldl podSpecStep init).MemoryLimitMi =
      init.MemoryLimitMi + (cs.map memContribution).sum := by
  induction cs generalizing init with
  | nil => simp
  | cons c cs ih =>
      rw [List.foldl_cons, ih]
      rw [podSpecStep_MemoryLimitMi]
      simp only [List.map_cons, List.sum_cons]
      ring

/-- C8: a workload carrying a (positive) memory limit on some container,
non-negative memory limits throughout, and no CPU limit on any
container, produces no row under the cpu dimension and exactly one row
under the memory dimension in aggregate (pod) mode, for any matched
metric sample. -/
theorem C8_memory_only_rows (pod : Pod) (pm : PodMetrics)
    (hnn : ∀ c ∈ pod.Containers, ∀ b, c.memLimitBytes = some b → 0 ≤ b)
    (hpos : ∃ c ∈ pod.Containers, ∃ b, c.memLimitBytes = some b ∧ 0 < b)
    (hnocpu : ∀ c ∈ pod.Containers, c.cpuLimitMc = none) :
    computePodRow pm (NewPodSpecInfo pod) .cpu = none ∧
    ∃ row, computePodRow pm (NewPodSpecInfo pod) .memory = some row := by
  have hcpu0 : (NewPodSpecInfo pod).CPULimitMc = 0 := by
    rw [NewPodSpecInfo, foldl_CPULimitMc _ _ hnocpu]
  have hmem : 0 < (NewPodSpecInfo pod).MemoryLimitMi := by
    rw [NewPodSpecInfo, foldl_MemoryLimitMi]
    obtain ⟨c, hc, b, hb, hbpos⟩ := hpos
    have hterm : 0 < memContribution c := by
      rw [memContribution, hb]
      have hb' : (0 : ℚ) < (b : ℚ) := by exact_mod_cast hbpos
      positivity
    have hall : ∀ x ∈ pod.Containers.map memContribution, 0 ≤ x := by
      intro x hx
      obtain ⟨c', hc', rfl⟩ := List.mem_map.mp hx
      rw [memContribution]
      cases hm : c'.memLimitBytes with
      | none => exact le_rfl
      | some b' =>
          have hb'' : (0 : Int) ≤ b' := hnn c' hc' b' hm
          have : (0 : ℚ) ≤ (b' : ℚ) := by exact_mod_cast hb''
          positivity
    have hle : memContribution c ≤ (pod.Containers.map memContribution).sum :=
      List.single_le_sum hall _ (List.mem_map_of_mem _ hc)
    simp only
    linarith
  constructor
  · have hH : HasCPULimit (NewPodSpecInfo pod) = false := by
      simp [HasCPULimit, hcpu0]
    rw [computePodRow, computePodCPURow, if_pos (by simp [hH])]
  · have hH : HasMemoryLimit (NewPodSpecInfo pod) = true := by
      simp [HasMemoryLimit]
      exact hmem
    exact ⟨_, by rw [computePodRow, computePodMemoryRow, if_neg (by simp [hH])]⟩

/-- Witness for `C8_memory_only_rows`: one container with a 512Mi memory
limit and no cpu limit, matched by a metric sample. -/
theorem C8_witness :
    computePodRow { Namespace := "default", Name := "p1",
                    Containers := [{ Name := "c1",
                                     memUsageBytes := some 268435456,
                                     cpuUsageMc := none }] }
        (NewPodSpecInfo { Namespace := "default", Name := "p1", Labels := [],
                          Containers := [{ name := "c1",
                                           memLimitBytes := some 536870912,
                                           cpuLimitMc := none }] }) .cpu = none ∧
    ∃ row, computePodRow { Namespace := "default", Name := "p1",
                           Containers := [{ Name := "c1",
                                            memUsageBytes := some 268435456,
                                            cpuUsageMc := none }] }
        (NewPodSpecInfo { Namespace := "default", Name := "p1", Labels := [],
                          Containers := [{ name := "c1",
                                           memLimitBytes := some 536870912,
                                           cpuLimitMc := none }] }) .memory =
      some row :=
  C8_memory_only_rows _ _ (by decide)
    ⟨{ name := "c1", memLimitBytes := some 536870912, cpuLimitMc := none },
      by decide, 536870912, rfl, by decide⟩
    (by decide)

theorem foldl_podMemUsage_nonneg (podInfo : PodSpecInfo)
    (cs : List ContainerMetrics)
    (h : ∀ c ∈ cs, ∀ b, c.memUsageBytes = some b → 0 ≤ b) :
    ∀ acc : ℚ, 0 ≤ acc → 0 ≤ cs.foldl (podMemUsageStep podInfo) acc := by
  induction cs with
  | nil => intro acc hacc; exact hacc
  | cons c cs ih =>
      intro acc hacc
      rw [List.foldl_cons]
      refine ih (fun c' hc' b hb => h c' (List.mem_cons_of_mem _ hc') b hb) _ ?_
      rw [podMemUsageStep]
      split
      · exact hacc
      · cases hm : c.memUsageBytes with
        | none => exact hacc
        | some b =>
            have hb : (0 : Int) ≤ b := h c (List.mem_cons_self _ _) b hm
            have hb' : (0 : ℚ) ≤ (b : ℚ) := by exact_mod_cast hb
            have : (0 : ℚ) ≤ (b : ℚ) / (1024 * 1024) := by positivity
            linarith

theorem foldl_podCPUUsage_nonneg (podInfo : PodSpecInfo)
    (cs : List ContainerMetrics)
    (h : ∀ c ∈ cs, ∀ b, c.cpuUsageMc = some b → 0 ≤ b) :
    ∀ acc : Int, 0 ≤ acc → 0 ≤ cs.foldl (podCPUUsageStep podInfo) acc := by
  induction cs with
  | nil => intro acc hacc; exact hacc
  | cons c cs ih =>
      intro acc hacc
      rw [List.foldl_cons]
      refine ih (fun c' hc' b hb => h c' (List.mem_cons_of_mem _ hc') b hb) _ ?_
      rw [podCPUUsageStep]
      split
      · exact hacc
      · cases hm : c.cpuUsageMc with
        | none => exact hacc
        | some b =>
            have hb : (0 : Int) ≤ b := h c (List.mem_cons_self _ _) b hm
            show 0 ≤ acc + b
            omega

/-- A pod-spec info with a 2Mi limit on container c1, used to exhibit a
row whose percentage exceeds 100. -/
def infoW9 : PodSpecInfo :=
  { Pod := { Namespace := "default", Name := "p1", Labels := [],
             Containers := [{ name := "c1", memLimitBytes := some 2097152,
                              cpuLimitMc := none }] },
    MemoryLimitMi := 2, CPULimitMc := 0,
    ContainerMemoryLimits := mapInsert (fun _ => none) "c1" 2,
    ContainerCPULimits := fun _ => none }

/-- A metric sample whose c1 memory usage is 4Mi — twice the limit. -/
def pmW9 : PodMetrics :=
  { Namespace := "default", Name := "p1",
    Containers := [{ Name := "c1", memUsageBytes := some 4194304,
                     cpuUsageMc := none }] }

/-- The row computed for `pmW9` against `infoW9`: 200% of the limit. -/
def rowW9 : Row :=
  { Namespace := "default", Name := "p1", UsageMi := 4, LimitMi := 2,
    UsageMc := 0, LimitMc := 0, Percentage := 200 }

theorem computePodMemoryRow_W9 :
    computePodMemoryRow pmW9 infoW9 = some rowW9 := by
  rw [computePodMemoryRow,
    if_neg (by norm_num [infoW9, HasMemoryLimit])]
  simp only [pmW9, infoW9, rowW9, List.foldl_cons, List.foldl_nil,
    podMemUsageStep, ContainerHasMemoryLimit, mapInsert, if_pos rfl]
  norm_num

/-- C9: every emitted result row — pod-level or container-level, memory
or cpu dimension — has a non-negative percentage whenever the raw usage
quantities are non-negative; and there is no upper bound: a row with
percentage above 100 is exhibited. -/
theorem C9_percentage_nonneg :
    (∀ (pm : PodMetrics) (info : PodSpecInfo),
      (∀ c ∈ pm.Containers, ∀ b, c.memUsageBytes = some b → 0 ≤ b) →
      ∀ row, computePodMemoryRow pm info = some row → 0 ≤ row.Percentage) ∧
    (∀ (pm : PodMetrics) (info : PodSpecInfo),
      (∀ c ∈ pm.Containers, ∀ b, c.cpuUsageMc = some b → 0 ≤ b) →
      ∀ row, computePodCPURow pm info = some row → 0 ≤ row.Percentage) ∧
    (∀ (ns cn : String) (container : ContainerMetrics) (info : PodSpecInfo),
      (∀ b, container.memUsageBytes = some b → 0 ≤ b) →
      ∀ row, computeContainerMemoryRow ns cn container info = some row →
        0 ≤ row.Percentage) ∧
    (∀ (ns cn : String) (container : ContainerMetrics) (info : PodSpecInfo),
      (∀ b, container.cpuUsageMc = some b → 0 ≤ b) →
      ∀ row, computeContainerCPURow ns cn container info = some row →
        0 ≤ row.Percentage) ∧
    (∃ (pm : PodMetrics) (info : PodSpecInfo) (row : Row),
      computePodMemoryRow pm info = some row ∧ 100 < row.Percentage) := by
  refine ⟨?_, ?_, ?_, ?_, ?_⟩
  · intro pm info h row hrow
    rw [computePodMemoryRow] at hrow
    split at hrow
    · cases hrow
    · rename ¬¬ (HasMemoryLimit info = true) => h'
      have hb : decide (info.MemoryLimitMi > 0) = true := not_not.mp h'
      have hlim : 0 < info.MemoryLimitMi := of_decide_eq_true hb
      injection hrow with hX
      subst hX
      have htot : 0 ≤ pm.Containers.foldl (podMemUsageStep info) 0 :=
        foldl_podMemUsage_nonneg info pm.Containers h 0 le_rfl
      exact mul_nonneg (div_nonneg htot (le_of_lt hlim)) (by norm_num)
  · intro pm info h row hrow
    rw [computePodCPURow] at hrow
    split at hrow
    · cases hrow
    · rename ¬¬ (HasCPULimit info = true) => h'
      have hb : decide (info.CPULimitMc > 0) = true := not_not.mp h'
      have hlim : 0 < info.CPULimitMc := of_decide_eq_true hb
      injection hrow with hX
      subst hX
      have htot : 0 ≤ pm.Containers.foldl (podCPUUsageStep info) 0 :=
        foldl_podCPUUsage_nonneg info pm.Containers h 0 le_rfl
      have h1 : (0 : ℚ) ≤ ((pm.Containers.foldl (podCPUUsageStep info) 0 : Int) : ℚ) := by
        exact_mod_cast htot
      have h2 : (0 : ℚ) ≤ (info.CPULimitMc : ℚ) := by
        exact_mod_cast le_of_lt hlim
      exact mul_nonneg (div_nonneg h1 h2) (by norm_num)
  · intro ns cn container info h row hrow
    rw [computeContainerMemoryRow] at hrow
    split at hrow
    · cases hrow
    · rename_i limitMi hL
      split at hrow
      · cases hrow
      · rename_i h2
        injection hrow with hX
        subst hX
        have hlim : (0 : ℚ) ≤ limitMi := le_of_lt (lt_of_not_le h2)
        have husage : (0 : ℚ) ≤ (match container.memUsageBytes with
            | some qty => (qty : ℚ) / (1024 * 1024)
            | none => 0) := by
          cases hm : container.memUsageBytes with
          | none => exact le_rfl
          | some b =>
              have hb : (0 : Int) ≤ b := h b hm
              have hb' : (0 : ℚ) ≤ (b : ℚ) := by exact_mod_cast hb
              positivity
        exact mul_nonneg (div_nonneg husage hlim) (by norm_num)
  · intro ns cn container info h row hrow
    rw [computeContainerCPURow] at hrow
    split at hrow
    · cases hrow
    · rename_i limitMc hL
      split at hrow
      · cases hrow
      · rename_i h2
        injection hrow with hX
        subst hX
        have hlim : (0 : ℚ) ≤ (limitMc : ℚ) := by
          have h3 : (0 : Int) ≤ limitMc := le_of_lt (lt_of_not_le h2)
          exact_mod_cast h3
        have husage : (0 : ℚ) ≤ ((match container.cpuUsageMc with
            | some qty => qty
            | none => 0 : Int) : ℚ) := by
          cases hm : container.cpuUsageMc with
          | none => norm_num
          | some b =>
              have hb : (0 : Int) ≤ b := h b hm
              exact_mod_cast hb
        exact mul_nonneg (div_nonneg husage hlim) (by norm_num)
  · exact ⟨pmW9, infoW9, rowW9, computePodMemoryRow_W9, by norm_num [rowW9]⟩

/-- Witness for `C9_percentage_nonneg` at the concrete 200% row. -/
theorem C9_witness : 0 ≤ rowW9.Percentage :=
  C9_percentage_nonneg.1 pmW9 infoW9 (by decide) rowW9 computePodMemoryRow_W9

/-- Concrete options used by collector witnesses. -/
def optsW : Options :=
  { Mode := .pods, Resource := .memory, ExcludeNamespaces := none,
    LabelSelector := "" }

/-- Concrete label parser used by collector witnesses: parses any
selector into a match-everything predicate. -/
def parseLabelsW : String → Except String (List (String × String) → Bool) :=
  fun _ => .ok (fun _ => true)

/-- Witness for `C10_collect_empty_is_error`: an empty pod fetch result
with a non-empty metrics result yields an error. -/
theorem C10_witness :
    ∃ e, Collect (.ok []) (.ok [{ Namespace := "default", Name := "p1",
                                  Containers := [] }]) optsW parseLabelsW =
      .error e :=
  C10_collect_empty_is_error (.ok []) _ optsW parseLabelsW (Or.inl rfl)

end KubectlUsage

